import Mathlib

/-!
Verification of the JOS kernel monitor (`kern/monitor.c`).

The monitor's handlers are embedded as pure Lean functions.  External
collaborators (console output, the page-table accessor `pgdir_walk`, the
debug-info resolver, raw stack memory) are modelled as oracle parameters;
console output is modelled as a list of emitted events.  Machine words are
`Nat` with explicit reduction modulo `2 ^ 32` where the C code's 32-bit
arithmetic can overflow.
-/

/-- Modelled from the spec: x86 page size (`PGSIZE` from `inc/mmu.h`, which is
not part of the provided sources; the spec's glossary fixes x86 32-bit
paging). -/
def PGSIZE : Nat := 4096

/-- The size of the 32-bit machine word space (`uintptr_t` / `pte_t` are
32-bit on the i386 target); `W32 = 2 ^ 32`. -/
def W32 : Nat := 4294967296

/-- Modelled from the spec: the present bit of a page-table entry
(`PTE_P` from `inc/mmu.h`; x86 32-bit paging). -/
def PTE_P : Nat := 1

/-- Modelled from the spec: the writeable bit of a page-table entry
(`PTE_W` from `inc/mmu.h`; x86 32-bit paging). -/
def PTE_W : Nat := 2

/-- Modelled from the spec: the user-accessible bit of a page-table entry
(`PTE_U` from `inc/mmu.h`; x86 32-bit paging). -/
def PTE_U : Nat := 4

/-- Modelled from the spec: the frame-address field of a page-table entry
(`PTE_ADDR` from `inc/mmu.h` masks off the low 12 permission bits). -/
def PTE_ADDR (e : Nat) : Nat := e &&& 0xFFFFF000

/-- Modelled from the spec: the kernel base offset (`KERNBASE` from
`inc/memlayout.h`; the spec gives `0xF0000000`). -/
def KERNBASE : Nat := 0xF0000000

/-- Modelled from the spec: `ROUNDUP(a, n)` from `inc/types.h`: round `a` up
to the nearest multiple of `n`. -/
def ROUNDUP (a n : Nat) : Nat := (a + n - 1) / n * n

/-- Console events emitted by the monitor's handlers, one constructor per
distinct `cprintf`/`panic` site the claims are about. -/
inductive MonEvent where
  | usageShowmappings
  | usageSetpermission
  | invalidAddr
  | mapping (va pa p w u : Nat)
  | noEntry (va : Nat)
  | panicMsg (s : String)
  | tooManyArgs (n : Nat)
  | unknownCmd (s : String)
  | beforeSetting
  | afterSetting
  deriving DecidableEq

/-- How a handler invocation ended: a `panic` (which halts the kernel) or a
normal return value. -/
inductive MonOutcome where
  | panicked (msg : String)
  | returned (r : Int)
  deriving DecidableEq

/-- `(e & mask) ? 1 : 0`, as in the permission-bit printing code of
`mon_showmapping` and `mon_setpermission`. -/
def pteBit (e mask : Nat) : Nat := if e &&& mask ≠ 0 then 1 else 0

/-- The line(s) printed for one page-table entry: the present branch prints
the virtual address, `PTE_ADDR(*entry)` and the P/W/U bits, the other branch
prints the entry-doesn't-exist line (`monitor.c:108-119`). -/
def smEntryEvent (va pte : Nat) : MonEvent :=
  if pte &&& PTE_P ≠ 0 then
    MonEvent.mapping va (PTE_ADDR pte) (pteBit pte PTE_P) (pteBit pte PTE_W) (pteBit pte PTE_U)
  else
    MonEvent.noEntry va

/-- The `while (begin <= end)` loop of `mon_showmapping` (`monitor.c:104-121`).
`walk` is the external `pgdir_walk(kern_pgdir, ·, 0)` oracle, returning the
entry word behind the returned handle (or `none` for a null handle).  Returns
the emitted events, the number of accessor calls, and the outcome; the
outcome is `none` when `fuel` ran out before the loop finished.  The
`begin += PGSIZE` step is 32-bit addition, hence the reduction mod `W32`. -/
def mon_showmapping_loop (walk : Nat → Option Nat) :
    Nat → Nat → Nat → List MonEvent × Nat × Option MonOutcome
  | 0, _, _ => ([], 0, none)
  | fuel + 1, b, e =>
    if b ≤ e then
      match walk b with
      | none =>
        ([MonEvent.panicMsg "pgdir_walk out of memory."], 1,
          some (MonOutcome.panicked "pgdir_walk out of memory."))
      | some pte =>
        let r := mon_showmapping_loop walk fuel ((b + PGSIZE) % W32) e
        (smEntryEvent b pte :: r.1, r.2.1 + 1, r.2.2)
    else
      ([], 0, some (MonOutcome.returned 0))

/-- `mon_showmapping` (`monitor.c:91-123`) after argument parsing: `b` and `e`
are the two parsed addresses.  With `argc != 3` it prints usage and returns 0.
The `begin > end` check prints the invalid-address diagnostic but does not
return (the loop guard then does no iteration).  The `begin < 0` and
`end < 0` disjuncts of the C condition are identically false on the unsigned
`uintptr_t` operands and are dropped. -/
def mon_showmapping (walk : Nat → Option Nat) (fuel argc b e : Nat) :
    List MonEvent × Nat × Option MonOutcome :=
  if argc ≠ 3 then
    ([MonEvent.usageShowmappings], 0, some (MonOutcome.returned 0))
  else
    let r := mon_showmapping_loop walk fuel b e
    ((if b > e then [MonEvent.invalidAddr] else []) ++ r.1, r.2.1, r.2.2)

/-- The bit-selector decoding of `mon_setpermission` (`monitor.c:155-160`):
`p`/`w`/`u` select the corresponding PTE bit, anything else selects the empty
mask. -/
def permMask (perm : Char) : Nat :=
  match perm with
  | 'p' => PTE_P
  | 'w' => PTE_W
  | 'u' => PTE_U
  | _ => 0

/-- The bit index of the mask selected by a selector character. -/
def permBitIdx (perm : Char) : Nat :=
  match perm with
  | 'p' => 0
  | 'w' => 1
  | 'u' => 2
  | _ => 0

/-- The direction decoding of `mon_setpermission` (`monitor.c:161-164`):
`s` ORs the mask into the entry, `c` ANDs the entry with the 32-bit
complement of the mask, anything else leaves the entry unchanged. -/
def applyDirection (dir : Char) (entry p : Nat) : Nat :=
  match dir with
  | 's' => entry ||| p
  | 'c' => entry &&& ((W32 - 1) ^^^ p)
  | _ => entry

/-- The observable result of one `mon_setpermission` invocation: emitted
events, the entry word left in the page table (when the entry was touched),
and the return value. -/
structure SPResult where
  events : List MonEvent
  newEntry : Option Nat
  ret : Int
  deriving DecidableEq

/-- `mon_setpermission` (`monitor.c:125-180`) after argument parsing: `addr`
is the parsed address, `dir` and `perm` the two option characters.  With
`argc != 4` it prints usage and returns 0.  Otherwise it dereferences the
`pgdir_walk` result unconditionally — there is no null check and no panic
branch — so a failed walk is undefined behaviour, modelled as `none`. -/
def mon_setpermission (walk : Nat → Option Nat) (argc addr : Nat)
    (dir perm : Char) : Option SPResult :=
  if argc ≠ 4 then
    some ⟨[MonEvent.usageSetpermission], none, 0⟩
  else
    match walk addr with
    | none => none
    | some e0 =>
      let e1 := applyDirection dir e0 (permMask perm)
      some ⟨[MonEvent.beforeSetting, smEntryEvent addr e0,
             MonEvent.afterSetting, smEntryEvent addr e1],
            some e1, 0⟩

/-! ### Bit-level helper lemmas for `setpermission` -/

theorem testBit_of_and_eq_zero {e : Nat} {b : Nat} (hz : e &&& 2 ^ b = 0) :
    e.testBit b = false := by
  have h := congrArg (fun x => Nat.testBit x b) hz
  simpa [Nat.testBit_two_pow_self] using h

theorem or_pow_testBit_ne (e : Nat) (b i : Nat) (hib : i ≠ b) :
    (e ||| 2 ^ b).testBit i = e.testBit i := by
  simp [Nat.testBit_or, Nat.testBit_two_pow_of_ne (fun h => hib h.symm)]

theorem or_pow_and_not_self {e b : Nat} (hb : b < 32) (he : e < W32)
    (hz : e &&& 2 ^ b = 0) : (e ||| 2 ^ b) &&& ((W32 - 1) ^^^ 2 ^ b) = e := by
  apply Nat.eq_of_testBit_eq
  intro i
  have hW : (W32 - 1).testBit i = decide (i < 32) := Nat.testBit_two_pow_sub_one 32 i
  rw [Nat.testBit_and, Nat.testBit_or, Nat.testBit_xor, hW]
  rcases eq_or_ne i b with rfl | hib
  · rw [Nat.testBit_two_pow_self, testBit_of_and_eq_zero hz]
    simp [hb]
  · rw [Nat.testBit_two_pow_of_ne (fun h => hib h.symm)]
    by_cases hlt : i < 32
    · simp [hlt]
    · have hei : e.testBit i = false := by
        apply Nat.testBit_lt_two_pow
        calc e < W32 := he
        _ = 2 ^ 32 := rfl
        _ ≤ 2 ^ i := Nat.pow_le_pow_right (by norm_num) (Nat.le_of_not_lt hlt)
      simp [hlt, hei]

theorem permMask_eq_pow {pc : Char} (hpc : pc = 'p' ∨ pc = 'w' ∨ pc = 'u') :
    permMask pc = 2 ^ permBitIdx pc ∧ permBitIdx pc < 32 := by
  rcases hpc with rfl | rfl | rfl <;> exact ⟨rfl, by decide⟩

/-- C1: `setpermission` round-trip and frame.  For every entry word `e` below
`2 ^ 32` and targeted bit `B = permMask pc` with `pc ∈ {p, w, u}` and
`e &&& B = 0`: the set step (direction `s`) stores `e ||| B`, which differs
from `e` only at `B`'s bit index (that bit becomes 1, every other bit is
preserved), and the clear step (direction `c`) applied to the stored word
restores exactly `e`. -/
theorem setpermission_set_clear_roundtrip (e : Nat) (pc : Char) (addr : Nat)
    (hpc : pc = 'p' ∨ pc = 'w' ∨ pc = 'u') (he : e < W32)
    (hz : e &&& permMask pc = 0) :
    (mon_setpermission (fun _ => some e) 4 addr 's' pc).map SPResult.newEntry
        = some (some (e ||| permMask pc))
    ∧ (∀ i, i ≠ permBitIdx pc →
        (e ||| permMask pc).testBit i = e.testBit i)
    ∧ (e ||| permMask pc).testBit (permBitIdx pc) = true
    ∧ (mon_setpermission (fun _ => some (e ||| permMask pc)) 4 addr 'c' pc).map
        SPResult.newEntry = some (some e) := by
  obtain ⟨hmask, hb⟩ := permMask_eq_pow hpc
  refine ⟨?_, ?_, ?_, ?_⟩
  · simp [mon_setpermission, applyDirection]
  · intro i hi
    rw [hmask]
    exact or_pow_testBit_ne e _ i hi
  · rw [hmask]
    simp [Nat.testBit_or, Nat.testBit_two_pow_self]
  · have hclr : (e ||| permMask pc) &&& ((W32 - 1) ^^^ permMask pc) = e := by
      rw [hmask]
      exact or_pow_and_not_self hb he (hmask ▸ hz)
    simp [mon_setpermission, applyDirection, hclr]

theorem setpermission_set_clear_roundtrip_witness :
    ((mon_setpermission (fun _ => some 0x5002) 4 0x2000 's' 'u').map
        SPResult.newEntry = some (some 0x5006))
    ∧ (0x5006 : Nat).testBit 2 = true
    ∧ (0x5006 : Nat).testBit 1 = (0x5002 : Nat).testBit 1
    ∧ ((mon_setpermission (fun _ => some 0x5006) 4 0x2000 'c' 'u').map
        SPResult.newEntry = some (some 0x5002)) := by
  have h := setpermission_set_clear_roundtrip 0x5002 'u' 0x2000
    (Or.inr (Or.inr rfl)) (by decide) (by decide)
  refine ⟨?_, ?_, ?_, ?_⟩
  · exact h.1.trans (by decide)
  · exact h.2.2.1
  · exact h.2.1 1 (by decide)
  · exact h.2.2.2.trans (by decide)

/-! ### `showmappings` theorems -/

/-- C6: with parsed addresses `begin > end`, `mon_showmapping` prints the
invalid-address diagnostic, performs zero page-table-accessor calls (the loop
guard `begin <= end` fails immediately, so there is no iteration), and
returns 0.  Stated for every positive fuel, which always suffices for zero
iterations. -/
theorem showmapping_begin_gt_end (walk : Nat → Option Nat) (fuel b e : Nat)
    (h : b > e) :
    mon_showmapping walk (fuel + 1) 3 b e =
      ([MonEvent.invalidAddr], 0, some (MonOutcome.returned 0)) := by
  have hnb : ¬ b ≤ e := Nat.not_le.mpr h
  simp [mon_showmapping, mon_showmapping_loop, hnb, h]

theorem showmapping_begin_gt_end_witness :
    mon_showmapping (fun _ => none) 1 3 0xA 0x5 =
      ([MonEvent.invalidAddr], 0, some (MonOutcome.returned 0)) :=
  showmapping_begin_gt_end (fun _ => none) 0 0xA 0x5 (by decide)

theorem showmapping_loop_no_panic (walk : Nat → Option Nat)
    (hw : ∀ a, (walk a).isSome) :
    ∀ fuel b e, (mon_showmapping_loop walk fuel b e).2.2 = none
      ∨ (mon_showmapping_loop walk fuel b e).2.2 = some (MonOutcome.returned 0) := by
  intro fuel
  induction fuel with
  | zero => intro b e; left; rfl
  | succ n ih =>
    intro b e
    by_cases hbe : b ≤ e
    · have hsome := hw b
      cases hwb : walk b with
      | none => rw [hwb] at hsome; simp at hsome
      | some pte =>
        have := ih ((b + PGSIZE) % W32) e
        simpa [mon_showmapping_loop, hbe, hwb] using this
    · right; simp [mon_showmapping_loop, hbe]

/-- C7: showmappings accessor-failure fatality.  First conjunct: whenever an
iteration's `pgdir_walk` call returns no entry handle, the step emits exactly
the panic diagnostic — no mapping line, no entry-doesn't-exist line — and the
run ends there with a panicked outcome (no further address is visited).
Second conjunct: when the accessor always returns a handle (including handles
to entries whose present bit is clear), no run ever panics — the only
possible outcomes are fuel exhaustion or a normal return 0. -/
theorem showmapping_walk_failure_panics (walk₁ walk₂ : Nat → Option Nat)
    (fuel₁ fuel₂ b₁ e₁ b₂ e₂ : Nat) (h₁ : b₁ ≤ e₁) (hn : walk₁ b₁ = none)
    (hw : ∀ a, (walk₂ a).isSome) :
    mon_showmapping_loop walk₁ (fuel₁ + 1) b₁ e₁ =
      ([MonEvent.panicMsg "pgdir_walk out of memory."], 1,
        some (MonOutcome.panicked "pgdir_walk out of memory."))
    ∧ ((mon_showmapping_loop walk₂ fuel₂ b₂ e₂).2.2 = none
      ∨ (mon_showmapping_loop walk₂ fuel₂ b₂ e₂).2.2
          = some (MonOutcome.returned 0)) := by
  constructor
  · simp [mon_showmapping_loop, h₁, hn]
  · exact showmapping_loop_no_panic walk₂ hw fuel₂ b₂ e₂

theorem showmapping_walk_failure_panics_witness :
    mon_showmapping_loop (fun _ => none) 1 0x1000 0x3000 =
      ([MonEvent.panicMsg "pgdir_walk out of memory."], 1,
        some (MonOutcome.panicked "pgdir_walk out of memory."))
    ∧ ((mon_showmapping_loop (fun _ => some 0) 2 0x1000 0x3000).2.2 = none
      ∨ (mon_showmapping_loop (fun _ => some 0) 2 0x1000 0x3000).2.2
          = some (MonOutcome.returned 0)) :=
  showmapping_walk_failure_panics (fun _ => none) (fun _ => some 0)
    0 2 0x1000 0x3000 0x1000 0x3000 (by decide) rfl (fun _ => rfl)

theorem showmapping_loop_count (walk : Nat → Option Nat)
    (hw : ∀ a, (walk a).isSome) (e : Nat) (he : e < W32 - PGSIZE) :
    ∀ n b fuel, b ≤ e → n = (e - b) / PGSIZE → n + 2 ≤ fuel →
      mon_showmapping_loop walk fuel b e =
        ((List.range (n + 1)).map
            (fun k => smEntryEvent (b + k * PGSIZE) ((walk (b + k * PGSIZE)).getD 0)),
          n + 1, some (MonOutcome.returned 0)) := by
  intro n
  induction n with
  | zero =>
    intro b fuel hbe hn hf
    obtain ⟨g, rfl⟩ : ∃ g, fuel = g + 2 := ⟨fuel - 2, by omega⟩
    cases hwb : walk b with
    | none => have := hw b; rw [hwb] at this; simp at this
    | some pte =>
      have hlt : e - b < PGSIZE := by
        simp only [PGSIZE] at hn ⊢; omega
      have hmod : (b + PGSIZE) % W32 = b + PGSIZE := by
        apply Nat.mod_eq_of_lt
        simp only [PGSIZE, W32] at *
        omega
      have hnot : ¬ (b + PGSIZE ≤ e) := by simp only [PGSIZE] at *; omega
      simp [mon_showmapping_loop, hbe, hwb, hmod, hnot, List.range_succ]
  | succ m ih =>
    intro b fuel hbe hn hf
    obtain ⟨g, rfl⟩ : ∃ g, fuel = g + 1 := ⟨fuel - 1, by omega⟩
    cases hwb : walk b with
    | none => have := hw b; rw [hwb] at this; simp at this
    | some pte =>
      have hmod : (b + PGSIZE) % W32 = b + PGSIZE := by
        apply Nat.mod_eq_of_lt
        simp only [PGSIZE, W32] at *
        omega
      have hbe' : b + PGSIZE ≤ e := by simp only [PGSIZE] at *; omega
      have hn' : m = (e - (b + PGSIZE)) / PGSIZE := by
        simp only [PGSIZE] at *; omega
      have hrec := ih (b + PGSIZE) g hbe' hn' (by omega)
      have hlist : List.map
          (fun k => smEntryEvent (b + k * PGSIZE) ((walk (b + k * PGSIZE)).getD 0))
          (List.range (m + 1 + 1))
          = smEntryEvent b pte :: List.map
              (fun k => smEntryEvent (b + PGSIZE + k * PGSIZE)
                ((walk (b + PGSIZE + k * PGSIZE)).getD 0))
              (List.range (m + 1)) := by
        rw [List.range_succ_eq_map, List.map_cons, List.map_map]
        refine congrArg₂ List.cons (by simp [hwb]) ?_
        apply List.map_congr_left
        intro k _
        have hk : b + (k + 1) * PGSIZE = b + PGSIZE + k * PGSIZE := by ring
        simp [Function.comp, hk]
      rw [mon_showmapping_loop]
      simp [hbe, hwb, hmod, hrec, hlist]

/-- C2: showmappings per-address behaviour.  For parsed addresses
`b ≤ e` (with the whole range below the 32-bit wrap region, and the accessor
returning a handle at every address so that the panic branch is not taken),
the handler calls the accessor once for each `addr = b + k * PGSIZE ≤ e` —
that is, `(e - b) / PGSIZE + 1` calls, visiting `b` through `e` inclusive —
and for each visited address emits the mapping line (virtual address, frame
address `PTE_ADDR`, and P/W/U bit values) when the entry's present bit is
set, and the entry-doesn't-exist line when it is clear (this case split is
`smEntryEvent`), then returns 0. -/
theorem showmapping_range_iteration (walk : Nat → Option Nat)
    (hw : ∀ a, (walk a).isSome) (b e fuel : Nat) (hbe : b ≤ e)
    (hnw : e < W32 - PGSIZE) (hf : (e - b) / PGSIZE + 2 ≤ fuel) :
    mon_showmapping walk fuel 3 b e =
      ((List.range ((e - b) / PGSIZE + 1)).map
          (fun k => smEntryEvent (b + k * PGSIZE) ((walk (b + k * PGSIZE)).getD 0)),
        (e - b) / PGSIZE + 1, some (MonOutcome.returned 0)) := by
  have h := showmapping_loop_count walk hw e hnw ((e - b) / PGSIZE) b fuel hbe rfl hf
  have hng : ¬ b > e := by omega
  simp [mon_showmapping, hng, h]

theorem showmapping_range_iteration_witness :
    mon_showmapping (fun _ => some 3) 4 3 0x1000 0x3000 =
      ([MonEvent.mapping 0x1000 0 1 1 0, MonEvent.mapping 0x2000 0 1 1 0,
        MonEvent.mapping 0x3000 0 1 1 0], 3, some (MonOutcome.returned 0)) :=
  (showmapping_range_iteration (fun _ => some 3) (fun _ => rfl) 0x1000 0x3000 4
    (by decide) (by decide) (by decide)).trans (by decide)

theorem showmapping_loop_stuck (walk : Nat → Option Nat)
    (hw : ∀ a, (walk a).isSome) (e r : Nat)
    (hre : W32 - PGSIZE + r ≤ e) (he : e < W32) (hr : r < PGSIZE) :
    ∀ fuel b, b ≤ e → b % PGSIZE = r →
      (mon_showmapping_loop walk fuel b e).2.2 = none := by
  intro fuel
  induction fuel with
  | zero => intro b _ _; rfl
  | succ g ih =>
    intro b hbe hbr
    cases hwb : walk b with
    | none => have := hw b; rw [hwb] at this; simp at this
    | some pte =>
      have hnext : (b + PGSIZE) % W32 ≤ e ∧ ((b + PGSIZE) % W32) % PGSIZE = r := by
        simp only [PGSIZE, W32] at *
        omega
      have := ih ((b + PGSIZE) % W32) hnext.1 hnext.2
      simpa [mon_showmapping_loop, hbe, hwb] using this

/-- C10: termination of the showmappings loop and its dependence on 32-bit
wraparound of `begin += PGSIZE`.  First conjunct: for `b₁ ≤ e₁` with every
visited address below `2^32 - PGSIZE` (equivalently `e₁ < 2^32 - PGSIZE`),
the loop performs exactly `(e₁ - b₁) / PGSIZE + 1` iterations (accessor
calls) and terminates with return value 0.  Second conjunct: when the last
visited address `b₂ + ((e₂ - b₂) / PGSIZE) * PGSIZE` lies within `PGSIZE` of
`2^32` (so `e₂` is in the top page), the increment wraps to a value still
`≤ e₂` and the loop never terminates — for every fuel the run is still
unfinished. -/
theorem showmapping_wraparound_termination (walk : Nat → Option Nat)
    (hw : ∀ a, (walk a).isSome) (b₁ e₁ fuel₁ b₂ e₂ fuel₂ : Nat)
    (h₁b : b₁ ≤ e₁) (h₁w : e₁ < W32 - PGSIZE)
    (h₁f : (e₁ - b₁) / PGSIZE + 2 ≤ fuel₁)
    (h₂b : b₂ ≤ e₂) (h₂e : e₂ < W32)
    (h₂t : W32 - PGSIZE ≤ b₂ + ((e₂ - b₂) / PGSIZE) * PGSIZE) :
    ((mon_showmapping_loop walk fuel₁ b₁ e₁).2.1 = (e₁ - b₁) / PGSIZE + 1
      ∧ (mon_showmapping_loop walk fuel₁ b₁ e₁).2.2 = some (MonOutcome.returned 0))
    ∧ (mon_showmapping_loop walk fuel₂ b₂ e₂).2.2 = none := by
  constructor
  · have h := showmapping_loop_count walk hw e₁ h₁w ((e₁ - b₁) / PGSIZE) b₁ fuel₁
      h₁b rfl h₁f
    rw [h]
    exact ⟨rfl, rfl⟩
  · apply showmapping_loop_stuck walk hw e₂ (b₂ % PGSIZE) ?_ h₂e ?_ fuel₂ b₂ h₂b rfl
    · simp only [PGSIZE, W32] at *
      omega
    · simp only [PGSIZE]
      omega

theorem showmapping_wraparound_termination_witness :
    ((mon_showmapping_loop (fun _ => some 1) 4 0 4096).2.1 = (4096 - 0) / PGSIZE + 1
      ∧ (mon_showmapping_loop (fun _ => some 1) 4 0 4096).2.2
          = some (MonOutcome.returned 0))
    ∧ (mon_showmapping_loop (fun _ => some 1) 3 4294959104 4294967295).2.2 = none :=
  showmapping_wraparound_termination (fun _ => some 1) (fun _ => rfl)
    0 4096 4 4294959104 4294967295 3
    (by decide) (by decide) (by decide) (by decide) (by decide) (by decide)

/-! ### Tokenizer, command table and dispatch (`runcmd`) -/

/-- The whitespace class of the tokenizer: `WHITESPACE "\t\r\n "` together
with `strchr` (`monitor.c:185,200,211`). -/
def isWS (c : Char) : Bool :=
  c = '\t' || c = '\r' || c = '\n' || c = ' '

/-- `MAXARGS` (`monitor.c:186`). -/
def MAXARGS : Nat := 16

/-- The argument-parsing loop of `runcmd` (`monitor.c:196-214`) as a one-pass
scan over the line.  The state is the token being accumulated (reversed), if
the scan is currently inside a token; `argc` counts tokens already started.
Starting a token when `argc = MAXARGS - 1` is the overflow case
(`monitor.c:206-209`), which prints the diagnostic and drops the whole
command; it is modelled as `none`.  `some ts` is the in-place token vector
`argv[0..argc-1]` (with `argc = ts.length`; the null sentinel `argv[argc]`
and the in-place terminator bytes are representation details carried by the
list abstraction). -/
def tokLoop : List Char → Nat → Option (List Char) → Option (List (List Char))
  | [], _, none => some []
  | [], _, some cur => some [cur.reverse]
  | c :: cs, argc, none =>
    if isWS c then
      tokLoop cs argc none
    else if argc = MAXARGS - 1 then
      none
    else
      tokLoop cs (argc + 1) (some [c])
  | c :: cs, argc, some cur =>
    if isWS c then
      (tokLoop cs argc none).map (cur.reverse :: ·)
    else
      tokLoop cs argc (some (c :: cur))

/-- Modelled from the spec: the whitespace-separated tokens of a line ("the
line splits on whitespace {space, tab, carriage-return, line-feed} into k
tokens"), with no bound on the token count. -/
def wsTokens : List Char → Option (List Char) → List (List Char)
  | [], none => []
  | [], some cur => [cur.reverse]
  | c :: cs, none =>
    if isWS c then wsTokens cs none else wsTokens cs (some [c])
  | c :: cs, some cur =>
    if isWS c then cur.reverse :: wsTokens cs none else wsTokens cs (some (c :: cur))

/-- Handler identities of the five registered commands. -/
inductive CmdId where
  | help
  | kerninfo
  | backtrace
  | showmappings
  | setpermission
  deriving DecidableEq

/-- The static command table (`monitor.c:26-32`).  The last entry's
registered name is the source's literal string `"setpremission"` (sic),
while its handler is `mon_setpermission`. -/
def commands : List (String × String × CmdId) :=
  [("help", "Display this list of commands", CmdId.help),
   ("kerninfo", "Display information about the kernel", CmdId.kerninfo),
   ("backtrace", "Display backtrack of the call", CmdId.backtrace),
   ("showmappings", "Display virtual/linear to physical mapping", CmdId.showmappings),
   ("setpremission", "Set permission of page table", CmdId.setpermission)]

/-- The linear first-match lookup of `runcmd` (`monitor.c:219-222`): byte-exact
`strcmp` of `argv[0]` against each registered name. -/
def lookupCmd (name : String) : Option CmdId :=
  (commands.find? (fun c => c.1 = name)).map (fun c => c.2.2)

/-- The observable result of `runcmd` (`monitor.c:188-225`): emitted events,
the handler invocation (command and argv) if one was dispatched, and the
return value (`some r` when `runcmd` returns `r` itself, `none` when the
return value is the invoked handler's). -/
structure RunOut where
  events : List MonEvent
  invoked : Option (CmdId × List String)
  ret : Option Int
  deriving DecidableEq

/-- `runcmd` (`monitor.c:188-225`): tokenize the buffer; on overflow print the
diagnostic and return 0; on `argc == 0` return 0 silently; otherwise look
`argv[0]` up in the command table and invoke the matching handler, or print
the unknown-command line and return 0. -/
def runcmd (buf : List Char) : RunOut :=
  match tokLoop buf 0 none with
  | none => ⟨[MonEvent.tooManyArgs MAXARGS], none, some 0⟩
  | some ts =>
    if ts.isEmpty then
      ⟨[], none, some 0⟩
    else
      let argv := ts.map (fun t => String.mk t)
      match lookupCmd (argv.headD "") with
      | some cid => ⟨[], some (cid, argv), none⟩
      | none => ⟨[MonEvent.unknownCmd (argv.headD "")], none, some 0⟩

theorem wsTokens_some_ne_nil :
    ∀ (cs : List Char) (cur : List Char), wsTokens cs (some cur) ≠ [] := by
  intro cs
  induction cs with
  | nil => intro cur; simp [wsTokens]
  | cons c cs ih =>
    intro cur
    by_cases hws : isWS c
    · simp [wsTokens, hws]
    · simpa [wsTokens, hws] using ih (c :: cur)

theorem tokLoop_spec :
    ∀ buf : List Char,
      (∀ argc, argc ≤ 15 →
        tokLoop buf argc none =
          if argc + (wsTokens buf none).length ≤ 15 then some (wsTokens buf none)
          else none)
      ∧ (∀ argc cur, argc ≤ 15 →
        tokLoop buf argc (some cur) =
          if argc + (wsTokens buf (some cur)).length ≤ 16 then
            some (wsTokens buf (some cur))
          else none) := by
  intro buf
  induction buf with
  | nil =>
    constructor
    · intro argc hargc
      simp [tokLoop, wsTokens, hargc]
    · intro argc cur hargc
      simp [tokLoop, wsTokens]
      omega
  | cons c cs ih =>
    constructor
    · intro argc hargc
      by_cases hws : isWS c
      · simpa [tokLoop, wsTokens, hws] using ih.1 argc hargc
      · have heq : wsTokens (c :: cs) none = wsTokens cs (some [c]) := by
          simp [wsTokens, hws]
        by_cases hmax : argc = MAXARGS - 1
        · have hne : wsTokens (c :: cs) none ≠ [] := by
            rw [heq]
            exact wsTokens_some_ne_nil cs [c]
          have hpos := List.length_pos.mpr hne
          have hcond : ¬ argc + (wsTokens (c :: cs) none).length ≤ 15 := by
            simp only [MAXARGS] at hmax
            omega
          subst hmax
          simp [tokLoop, hws, hcond]
        · have hargc' : argc + 1 ≤ 15 := by simp only [MAXARGS] at hmax; omega
          have h2 := ih.2 (argc + 1) [c] hargc'
          rw [heq]
          simp only [tokLoop, hws, hmax, Bool.false_eq_true, if_false, ite_false]
          rw [h2]
          by_cases hcond : argc + (wsTokens cs (some [c])).length ≤ 15
          · have h16 : argc + 1 + (wsTokens cs (some [c])).length ≤ 16 := by omega
            simp [hcond, h16]
          · have h16 : ¬ argc + 1 + (wsTokens cs (some [c])).length ≤ 16 := by omega
            simp [hcond, h16]
    · intro argc cur hargc
      by_cases hws : isWS c
      · have h1 := ih.1 argc hargc
        have heq : wsTokens (c :: cs) (some cur) = cur.reverse :: wsTokens cs none := by
          simp [wsTokens, hws]
        rw [heq]
        simp only [tokLoop, hws, if_true]
        rw [h1]
        by_cases hle : argc + (wsTokens cs none).length ≤ 15
        · have h16 : argc + ((wsTokens cs none).length + 1) ≤ 16 := by omega
          simp [hle, h16]
        · have h16 : ¬ argc + ((wsTokens cs none).length + 1) ≤ 16 := by omega
          simp [hle, h16]
      · have h2 := ih.2 argc (c :: cur) hargc
        have heq : wsTokens (c :: cs) (some cur) = wsTokens cs (some (c :: cur)) := by
          simp [wsTokens, hws]
        rw [heq]
        simpa [tokLoop, hws] using h2

/-- C3: tokenizer contract.  For any line that splits on whitespace
{space, tab, carriage-return, line-feed} into `k` tokens: if `k ≤ 15` the
tokenizer produces exactly those `k` tokens as `argv[0..k-1]` (so
`argc = k`); in particular a whitespace-only or empty line (`k = 0`) makes
`runcmd` return 0 silently with no handler invoked; and if `k ≥ 16` the
tokenizer overflows, `runcmd` emits the too-many-arguments diagnostic
(max 16), invokes no handler, and returns 0. -/
theorem runcmd_tokenizer_contract (buf₁ buf₂ buf₃ : List Char)
    (h₁ : (wsTokens buf₁ none).length ≤ 15)
    (h₂ : 16 ≤ (wsTokens buf₂ none).length)
    (h₃ : (wsTokens buf₃ none).length = 0) :
    tokLoop buf₁ 0 none = some (wsTokens buf₁ none)
    ∧ runcmd buf₂ = ⟨[MonEvent.tooManyArgs 16], none, some 0⟩
    ∧ runcmd buf₃ = ⟨[], none, some 0⟩ := by
  have t₁ := (tokLoop_spec buf₁).1 0 (by omega)
  have t₂ := (tokLoop_spec buf₂).1 0 (by omega)
  have t₃ := (tokLoop_spec buf₃).1 0 (by omega)
  refine ⟨?_, ?_, ?_⟩
  · rw [t₁]
    simp [h₁]
  · have hc : ¬ 0 + (wsTokens buf₂ none).length ≤ 15 := by omega
    rw [hc |> if_neg] at t₂
    simp [runcmd, t₂, MAXARGS]
  · have hc : 0 + (wsTokens buf₃ none).length ≤ 15 := by omega
    rw [hc |> if_pos] at t₃
    have hnil : wsTokens buf₃ none = [] := List.length_eq_zero.mp h₃
    rw [hnil] at t₃
    simp [runcmd, t₃]

theorem runcmd_tokenizer_contract_witness :
    tokLoop ("  a  b\tc\n".toList) 0 none = some (wsTokens ("  a  b\tc\n".toList) none)
    ∧ runcmd ("a b c d e f g h i j k l m n o p".toList)
        = ⟨[MonEvent.tooManyArgs 16], none, some 0⟩
    ∧ runcmd ("  \t ".toList) = ⟨[], none, some 0⟩ :=
  runcmd_tokenizer_contract ("  a  b\tc\n".toList)
    ("a b c d e f g h i j k l m n o p".toList) ("  \t ".toList)
    (by decide) (by decide) (by decide)

/-- C5: CLI grammar for the permission editor.  The claim says an input line
whose first token is the byte-exact string `setpermission` is dispatched to
the permission-editor handler.  The code registers the handler under the
misspelled name `setpremission` (`monitor.c:31`), so the byte-exact lookup of
`setpermission` misses and `runcmd` reports an unknown command instead; the
misspelled name is what reaches the handler. -/
theorem setpermission_dispatch_lookup :
    lookupCmd "setpermission" = none
    ∧ lookupCmd "setpremission" = some CmdId.setpermission
    ∧ runcmd ("setpermission 0x2000 s u".toList)
        = ⟨[MonEvent.unknownCmd "setpermission"], none, some 0⟩
    ∧ (runcmd ("setpermission 0x2000 s u".toList)).invoked = none := by
  refine ⟨by decide, by decide, by decide, by decide⟩

/-! ### `kerninfo` -/

/-- The numbers printed by `mon_kerninfo` (`monitor.c:46-60`): each linker
symbol's virtual address and its physical equivalent (the 32-bit difference
with `KERNBASE`; `_start` is already physical), the footprint line's
kilobyte count, and the return value. -/
structure KernInfoOut where
  startPhys : Nat
  entryVirt : Nat
  entryPhys : Nat
  etextVirt : Nat
  etextPhys : Nat
  edataVirt : Nat
  edataPhys : Nat
  endVirt : Nat
  endPhys : Nat
  footprintKB : Nat
  ret : Int
  deriving DecidableEq

/-- `mon_kerninfo` (`monitor.c:46-60`) over the linker-symbol addresses.
Pointer differences are 32-bit, hence the `% W32` reductions. -/
def mon_kerninfo (start entry etext edata end_ : Nat) : KernInfoOut :=
  ⟨start,
   entry, (entry + W32 - KERNBASE) % W32,
   etext, (etext + W32 - KERNBASE) % W32,
   edata, (edata + W32 - KERNBASE) % W32,
   end_, (end_ + W32 - KERNBASE) % W32,
   ROUNDUP ((end_ + W32 - entry) % W32) 1024 / 1024,
   0⟩

/-- C8: kerninfo footprint arithmetic.  For kernel-half symbol values
(`KERNBASE ≤ entry ≤ end < 2^32`), the reported footprint is `end - entry`
rounded up to a whole kilobyte, expressed in KB (ceiling division by 1024),
and entry's physical address is `entry - KERNBASE`.  At the spec's concrete
values (`entry = 0xF0100000`, `end = 0xF0120000`, `KERNBASE = 0xF0000000`)
these are 128KB and 0x00100000 (see the witness). -/
theorem kerninfo_footprint (s en et ed e_ : Nat)
    (h1 : KERNBASE ≤ en) (h2 : en ≤ e_) (h3 : e_ < W32) :
    (mon_kerninfo s en et ed e_).footprintKB = (e_ - en + 1023) / 1024
    ∧ (mon_kerninfo s en et ed e_).entryPhys = en - KERNBASE := by
  constructor
  · show ROUNDUP ((e_ + W32 - en) % W32) 1024 / 1024 = (e_ - en + 1023) / 1024
    have hd : (e_ + W32 - en) % W32 = e_ - en := by
      simp only [W32, KERNBASE] at *
      omega
    rw [hd]
    simp only [ROUNDUP]
    omega
  · show (en + W32 - KERNBASE) % W32 = en - KERNBASE
    simp only [W32, KERNBASE] at *
    omega

theorem kerninfo_footprint_witness :
    (mon_kerninfo 0x00100000 0xF0100000 0xF0101000 0xF0112000 0xF0120000).footprintKB
        = 128
    ∧ (mon_kerninfo 0x00100000 0xF0100000 0xF0101000 0xF0112000 0xF0120000).entryPhys
        = 0x00100000 := by
  have h := kerninfo_footprint 0x00100000 0xF0100000 0xF0101000 0xF0112000 0xF0120000
    (by decide) (by decide) (by decide)
  exact ⟨h.1.trans (by decide), h.2.trans (by decide)⟩

/-! ### `setpermission` dereference precondition -/

def isPanicEvent : MonEvent → Bool
  | MonEvent.panicMsg _ => true
  | _ => false

/-- The events emitted by a `mon_setpermission` run (none when the run is
undefined behaviour). -/
def spEvents : Option SPResult → List MonEvent
  | none => []
  | some out => out.events

theorem isPanicEvent_smEntryEvent (va pte : Nat) :
    isPanicEvent (smEntryEvent va pte) = false := by
  unfold smEntryEvent
  split <;> rfl

/-- C9: `setpermission` requires, as an unchecked precondition, that the
page-table accessor returns an entry handle.  On the `argc = 4` path the
handler's behaviour is defined exactly when the walk succeeds (the run is the
undefined-dereference marker `none` iff the accessor returned no handle),
and no defined run ever emits a panic event — unlike `showmappings`, there is
no failure check and no panic branch. -/
theorem setpermission_deref_precondition (walk : Nat → Option Nat)
    (addr : Nat) (dir perm : Char) :
    (mon_setpermission walk 4 addr dir perm = none ↔ walk addr = none)
    ∧ (spEvents (mon_setpermission walk 4 addr dir perm)).all
        (fun ev => !isPanicEvent ev) = true := by
  cases hwa : walk addr with
  | none => simp [mon_setpermission, hwa, spEvents]
  | some e0 =>
    have h1 := isPanicEvent_smEntryEvent addr e0
    have h2 := isPanicEvent_smEntryEvent addr (applyDirection dir e0 (permMask perm))
    simp [mon_setpermission, hwa, spEvents, h1, h2,
      show isPanicEvent MonEvent.beforeSetting = false from rfl,
      show isPanicEvent MonEvent.afterSetting = false from rfl]

theorem setpermission_deref_precondition_witness :
    mon_setpermission (fun _ => none) 4 0x2000 's' 'p' = none :=
  (setpermission_deref_precondition (fun _ => none) 0x2000 's' 'p').1.mpr rfl

/-! ### `backtrace` -/

/-- `struct Eipdebuginfo` (`kern/kdebug.h`), as consumed by
`mon_backtrace`. -/
structure Eipdebuginfo where
  eip_file : String
  eip_line : Nat
  eip_fn_name : String
  eip_fn_namelen : Nat
  eip_fn_addr : Nat
  deriving DecidableEq

/-- The lines printed by `mon_backtrace`: the raw frame line
(`ebp`, `eip = *(ebp+4)`, and the five words at `ebp+8 .. ebp+24`), and the
indented symbolication line printed when `debuginfo_eip` succeeds. -/
inductive BTLine where
  | raw (ebp eip a1 a2 a3 a4 a5 : Nat)
  | sym (file : String) (line fnlen : Nat) (name : String) (off : Nat)
  deriving DecidableEq

def isRawLine : BTLine → Bool
  | BTLine.raw _ _ _ _ _ _ _ => true
  | _ => false

/-- The `while (ebp != 0)` loop of `mon_backtrace` (`monitor.c:71-87`).
`mem` is the raw stack memory oracle (32-bit word at a byte address), `dbg`
the external `debuginfo_eip` resolver (`none` models a nonzero return, whose
symbolication line is silently skipped).  `none` means the fuel ran out
before the walk reached a zero frame pointer. -/
def mon_backtrace_loop (mem : Nat → Nat) (dbg : Nat → Option Eipdebuginfo) :
    Nat → Nat → Option (List BTLine)
  | 0, ebp => if ebp = 0 then some [] else none
  | fuel + 1, ebp =>
    if ebp = 0 then
      some []
    else
      let eip := mem (ebp + 4)
      let symLines : List BTLine :=
        match dbg eip with
        | some info =>
          [BTLine.sym info.eip_file info.eip_line info.eip_fn_namelen
            info.eip_fn_name ((eip + W32 - info.eip_fn_addr) % W32)]
        | none => []
      match mon_backtrace_loop mem dbg fuel (mem ebp) with
      | none => none
      | some rest =>
        some (BTLine.raw ebp eip (mem (ebp + 8)) (mem (ebp + 12)) (mem (ebp + 16))
          (mem (ebp + 20)) (mem (ebp + 24)) :: symLines ++ rest)

/-- `mon_backtrace` (`monitor.c:65-89`): walk the frame chain from the saved
base pointer `ebp0` (the external `read_ebp()`), then return 0. -/
def mon_backtrace (mem : Nat → Nat) (dbg : Nat → Option Eipdebuginfo)
    (fuel ebp0 : Nat) : Option (List BTLine × Int) :=
  (mon_backtrace_loop mem dbg fuel ebp0).map (fun ls => (ls, 0))

/-- `chain` lists the successive non-zero frame pointers reachable from
`ebp`: `mem` links each one to the next and the deepest saved frame pointer
is zero. -/
def isChain (mem : Nat → Nat) : Nat → List Nat → Bool
  | e, [] => e == 0
  | e, f :: fs => e == f && (f != 0) && isChain mem (mem f) fs

/-- C4: backtrace termination and line count.  For every frame-pointer chain
whose deepest saved frame pointer is zero, `mon_backtrace` emits exactly one
raw frame line per non-zero frame pointer in the chain (each carrying the
frame pointer, the return address at `fp + 4`, and the next five words),
stops at the zero frame pointer, and returns 0. -/
theorem backtrace_chain_termination (mem : Nat → Nat)
    (dbg : Nat → Option Eipdebuginfo) (chain : List Nat) (ebp0 fuel : Nat)
    (hc : isChain mem ebp0 chain = true) (hf : chain.length ≤ fuel) :
    (mon_backtrace mem dbg fuel ebp0).map
        (fun out => (out.1.countP isRawLine, out.2)) =
      some (chain.length, 0) := by
  induction chain generalizing ebp0 fuel with
  | nil =>
    have h0 : ebp0 = 0 := by simpa [isChain] using hc
    subst h0
    cases fuel with
    | zero => simp [mon_backtrace, mon_backtrace_loop]
    | succ g => simp [mon_backtrace, mon_backtrace_loop]
  | cons f fs ih =>
    have hc' : ebp0 = f ∧ f ≠ 0 ∧ isChain mem (mem f) fs = true := by
      simpa [isChain, Bool.and_eq_true, and_assoc] using hc
    obtain ⟨rfl, hf0, hrest⟩ := hc'
    obtain ⟨g, rfl⟩ : ∃ g, fuel = g + 1 := ⟨fuel - 1, by simp at hf; omega⟩
    have hg : fs.length ≤ g := by simp at hf; omega
    have hrec := ih (mem ebp0) g hrest hg
    simp only [mon_backtrace] at hrec ⊢
    cases hloop : mon_backtrace_loop mem dbg g (mem ebp0) with
    | none => rw [hloop] at hrec; simp at hrec
    | some rest =>
      rw [hloop] at hrec
      have hcount : rest.countP isRawLine = fs.length := by
        simpa using hrec
      rw [mon_backtrace_loop]
      simp only [hf0, if_neg, hloop]
      cases hdbg : dbg (mem (ebp0 + 4)) with
      | none =>
        simp [hdbg, List.countP_cons, isRawLine, hcount]
      | some info =>
        simp [hdbg, List.countP_cons, List.countP_append, isRawLine, hcount,
          show isRawLine (BTLine.sym info.eip_file info.eip_line info.eip_fn_namelen
            info.eip_fn_name ((mem (ebp0 + 4) + W32 - info.eip_fn_addr) % W32)) = false
            from rfl]

theorem backtrace_chain_termination_witness :
    (mon_backtrace (fun a => if a = 8 then 16 else 0) (fun _ => none) 2 8).map
        (fun out => (out.1.countP isRawLine, out.2)) = some (2, 0) :=
  backtrace_chain_termination (fun a => if a = 8 then 16 else 0) (fun _ => none)
    [8, 16] 8 2 (by decide) (by decide)
